import Mathlib

/-!
Verification of the value-mapper-vue interaction/geometry core.

Shallow embedding of the library's Mapping Store (`lib/context.ts`, the
`createInjectionState` body: `connections`, `addConnection`,
`removeConnection`, `startConnection`, `endConnection`, `cancelConnection`,
`hasConnection`) and of the pure Geometry Engine (`lib/utils.ts`:
`omit`, `generateBezierPath`, `generateSmoothStepPath`) together with the
arrow-path generator `getArrowPath` from `useConnectionUtils` /
`useConnectionPreview`.

Modelling decisions, each noted at its definition:
- The reactive mapping `Ref<Record<string, string>>` is modelled as an
  association list in property-creation (insertion) order; reads through
  `Object.entries` / `Object.keys` / `Object.values` go through `jsEntries`,
  which reproduces the ECMAScript own-property ordering (array-index keys
  first in ascending numeric order, then the remaining string keys in
  creation order).
- JavaScript numbers are modelled as rationals. Every arithmetic operation
  the geometry functions perform (addition, subtraction, absolute value,
  multiplication by 0.5, division by 2) is exact on IEEE doubles whenever
  the operands and results are representable, which holds at all inputs
  the claims evaluate; number-to-string formatting is modelled for the
  integral and half-integral values these paths produce.
-/

namespace ValueMapper

/-- `NodeType` from `lib/common.ts`: `"source" | "target"`. -/
inductive NodeType where
  | source
  | target
deriving DecidableEq

/-- `Connection` from `lib/common.ts`: `{id, source, target}`. -/
structure Connection where
  id : String
  source : String
  target : String
deriving DecidableEq

/-- A JavaScript string-keyed record (`Record<string, string>`), modelled as
an association list of its own properties in property-creation order.
Keys are unique in an actual JS object; no lemma below needs that. -/
abbrev Mapping : Type := List (String × String)

/-- Decimal value of a nonempty all-digit character list, `none` otherwise
(a structural-recursion rendering of `String.toNat?`). -/
def parseDigits : List Char → Option Nat
  | [] => none
  | l =>
    if l.all Char.isDigit then
      some (l.foldl (fun acc c => acc * 10 + (c.toNat - 48)) 0)
    else none

/-- `String.toNat?` on the underlying character list. -/
def strToNat (s : String) : Option Nat :=
  parseDigits s.data

/-- Whether a string is an ECMAScript array index: the canonical decimal
form of an integer `n` with `0 ≤ n < 2^32 - 1`. Such keys enumerate before
all other string keys, in ascending numeric order. -/
def isArrayIndex (s : String) : Bool :=
  match strToNat s with
  | some n => decide (Nat.repr n = s) && decide (n < 4294967295)
  | none => false

/-- Numeric value of an array-index key, used only to order such keys. -/
def indexVal (s : String) : Nat :=
  (strToNat s).getD 0

/-- Insert an entry into a list of array-index entries, keeping ascending
numeric key order. -/
def insertByIndex (p : String × String) : List (String × String) → List (String × String)
  | [] => [p]
  | q :: rest =>
    if indexVal p.1 ≤ indexVal q.1 then p :: q :: rest
    else q :: insertByIndex p rest

/-- Sort a list of array-index entries by ascending numeric key. -/
def sortByIndex : List (String × String) → List (String × String)
  | [] => []
  | p :: rest => insertByIndex p (sortByIndex rest)

/-- `Object.entries(m)` (also the order of `Object.keys` / `Object.values`
and of spread-copying): array-index keys first in ascending numeric order,
then the remaining keys in property-creation order. -/
def jsEntries (m : Mapping) : List (String × String) :=
  sortByIndex (m.filter (fun kv => isArrayIndex kv.1))
    ++ m.filter (fun kv => !isArrayIndex kv.1)

/-- `omit` from `lib/utils.ts` (`omit` is reserved in Lean, hence `omitKeys`):
spread-copy the object, then `delete` each listed key. On the
association-list model this removes every entry whose key is listed. (The
spread re-creates properties in `jsEntries` order; since all reads go
through `jsEntries`, keeping creation order here is observationally
equivalent.) -/
def omitKeys (obj : Mapping) (keys : List String) : Mapping :=
  obj.filter (fun kv => !(keys.contains kv.1))

/-- The spread-update `{...mapping, [source]: target}` used by
`addConnection`: an existing key keeps its position and gets the new value;
a new key is created last. -/
def spreadSet : Mapping → String → String → Mapping
  | [], s, t => [(s, t)]
  | (k, v) :: rest, s, t =>
    if k = s then (k, t) :: rest else (k, v) :: spreadSet rest s t

/-- The store state provided by `createInjectionState` in `lib/context.ts`:
the committed `mapping` plus the drag refs `isDragging` and `dragSource`. -/
structure StoreState where
  mapping : Mapping
  isDragging : Bool
  dragSource : Option String
deriving DecidableEq

/-- The store as created by `ValueMapperRoot` with the host's mapping `m0`:
`isDragging = ref(false)`, `dragSource = ref<string|null>(null)`. -/
def initialState (m0 : Mapping) : StoreState :=
  ⟨m0, false, none⟩

/-- `connections` computed property: `Object.entries(mapping.value).map(...)`
building `{id: s + '->' + t, source: s, target: t}` fresh on each read. -/
def connections (st : StoreState) : List Connection :=
  (jsEntries st.mapping).map (fun kv => ⟨kv.1 ++ "->" ++ kv.2, kv.1, kv.2⟩)

/-- `addConnection(source, target)`:
`mapping.value = {...mapping.value, [source]: target}`. -/
def addConnection (st : StoreState) (source target : String) : StoreState :=
  { st with mapping := spreadSet st.mapping source target }

/-- `removeConnection(source)`: `mapping.value = omit(mapping.value, [source])`. -/
def removeConnection (st : StoreState) (source : String) : StoreState :=
  { st with mapping := omitKeys st.mapping [source] }

/-- `startConnection(sourceId)`: set `isDragging = true`, `dragSource = sourceId`. -/
def startConnection (st : StoreState) (sourceId : String) : StoreState :=
  { st with isDragging := true, dragSource := some sourceId }

/-- JavaScript truthiness of a `string | null` value: `null` and the empty
string are falsy, every other string is truthy. -/
def jsTruthy : Option String → Bool
  | none => false
  | some s => !(s == "")

/-- `endConnection(targetId)`: `if (dragSource.value) addConnection(dragSource.value, targetId);`
then `isDragging = false; dragSource = null`. Note the guard is JS
truthiness of `dragSource.value`, not the `isDragging` flag. -/
def endConnection (st : StoreState) (targetId : String) : StoreState :=
  let st' :=
    match st.dragSource with
    | some s => if jsTruthy (some s) then addConnection st s targetId else st
    | none => st
  { st' with isDragging := false, dragSource := none }

/-- `cancelConnection()`: `isDragging = false; dragSource = null`. -/
def cancelConnection (st : StoreState) : StoreState :=
  { st with isDragging := false, dragSource := none }

/-- `hasConnection(nodeId, nodeType)`: for `"source"`,
`Object.keys(mapping.value).includes(nodeId)`; otherwise
`Object.values(mapping.value).includes(nodeId)`. -/
def hasConnection (st : StoreState) (nodeId : String) (nodeType : NodeType) : Bool :=
  match nodeType with
  | .source => ((jsEntries st.mapping).map Prod.fst).contains nodeId
  | .target => ((jsEntries st.mapping).map Prod.snd).contains nodeId

/-- One call against the store, for quantifying over call sequences. -/
inductive Op where
  | add (source target : String)
  | remove (source : String)
  | start (sourceId : String)
  | finish (targetId : String)
  | cancel

/-- Apply one store call (`finish` is `endConnection`; `end` is reserved in Lean). -/
def applyOp (st : StoreState) : Op → StoreState
  | .add s t => addConnection st s t
  | .remove s => removeConnection st s
  | .start s => startConnection st s
  | .finish t => endConnection st t
  | .cancel => cancelConnection st

/-- Apply a sequence of store calls in order. -/
def applyOps (st : StoreState) (ops : List Op) : StoreState :=
  ops.foldl applyOp st

/-- Modelled from the spec, for comparison with `connections`: "produces the
current list of Connection views ...; order follows Mapping's insertion
order" — one view per mapping entry, in the association list's own
(insertion) order. -/
def specConnections (st : StoreState) : List Connection :=
  st.mapping.map (fun kv => ⟨kv.1 ++ "->" ++ kv.2, kv.1, kv.2⟩)

/-- The spec's Drag State invariant: `dragSource` is non-null only while
`isDragging` is true. -/
def dragInvariant (st : StoreState) : Prop :=
  st.dragSource ≠ none → st.isDragging = true

/-- ECMAScript Number::toString restricted to the values the path
generators format in the verified claims: integral doubles print with no
decimal point or exponent, half-integral doubles print with a trailing
`.5`. (Other denominators cannot arise from the claims' inputs; they are
rendered as a fraction, a case no theorem below touches.) -/
def fmtNum (q : ℚ) : String :=
  if q.den = 1 then toString q.num
  else if q.den = 2 then
    (if q.num < 0 then "-" else "") ++ Nat.repr (q.num.natAbs / 2) ++ ".5"
  else toString q.num ++ "/" ++ Nat.repr q.den

/-- `generateBezierPath(sx, sy, tx, ty)` from `lib/utils.ts`:
`controlPointDistance = Math.abs(tx - sx) * 0.5`, control points
`(sx + d, sy)` and `(tx - d, ty)`, output
``M ${sx} ${sy} C ${cx1} ${cy1}, ${cx2} ${cy2}, ${tx} ${ty}``. -/
def generateBezierPath (sx sy tx ty : ℚ) : String :=
  let controlPointDistance := |tx - sx| * (1 / 2)
  let cx1 := sx + controlPointDistance
  let cy1 := sy
  let cx2 := tx - controlPointDistance
  let cy2 := ty
  "M " ++ fmtNum sx ++ " " ++ fmtNum sy ++ " C " ++ fmtNum cx1 ++ " " ++ fmtNum cy1
    ++ ", " ++ fmtNum cx2 ++ " " ++ fmtNum cy2 ++ ", " ++ fmtNum tx ++ " " ++ fmtNum ty

/-- `generateSmoothStepPath(sx, sy, tx, ty, radius = 2)` from `lib/utils.ts`:
`midX = (sx + tx) / 2`, `direction = sy < ty ? 1 : -1`, six segment strings
joined by a space. -/
def generateSmoothStepPath (sx sy tx ty : ℚ) (radius : ℚ := 2) : String :=
  let midX := (sx + tx) / 2
  let direction : ℚ := if sy < ty then 1 else -1
  String.intercalate " " [
    "M " ++ fmtNum sx ++ " " ++ fmtNum sy,
    "H " ++ fmtNum (midX - radius),
    "Q " ++ fmtNum midX ++ "," ++ fmtNum sy ++ " " ++ fmtNum midX ++ ","
      ++ fmtNum (sy + direction * radius),
    "V " ++ fmtNum (ty - direction * radius),
    "Q " ++ fmtNum midX ++ "," ++ fmtNum ty ++ " " ++ fmtNum (midX + radius) ++ ","
      ++ fmtNum ty,
    "H " ++ fmtNum tx
  ]

/-- `getArrowPath(size = 4, offset = 0)` from `useConnectionUtils` (the copy
in `useConnectionPreview` is textually identical): the target anchor
coordinates read from `coords.value.target` are passed here explicitly (the
enclosing closure returns `''` before reaching this code when `coords` is
null). Tip `(targetX - offset, targetY)`, base corners at `tip.x - size`,
`tip.y ∓ size/2`, closed with `Z`. -/
def getArrowPath (targetX targetY : ℚ) (size : ℚ := 4) (offset : ℚ := 0) : String :=
  let tx := targetX - offset
  let ty := targetY
  let ax := tx - size
  let ay := ty - size / 2
  let bx := tx - size
  let b_y := ty + size / 2
  "M " ++ fmtNum tx ++ " " ++ fmtNum ty ++ " L " ++ fmtNum ax ++ " " ++ fmtNum ay
    ++ " L " ++ fmtNum bx ++ " " ++ fmtNum b_y ++ " Z"

/-! Helper lemmas about the JS enumeration order and the spread update. -/

theorem mem_insertByIndex {p q : String × String} {l : List (String × String)} :
    q ∈ insertByIndex p l ↔ q = p ∨ q ∈ l := by
  induction l with
  | nil => simp [insertByIndex]
  | cons r rest ih =>
    by_cases h : indexVal p.1 ≤ indexVal r.1
    · simp [insertByIndex, h]
    · simp only [insertByIndex, h, if_false, List.mem_cons, ih]
      tauto

theorem mem_sortByIndex {q : String × String} {l : List (String × String)} :
    q ∈ sortByIndex l ↔ q ∈ l := by
  induction l with
  | nil => simp [sortByIndex]
  | cons p rest ih => simp [sortByIndex, mem_insertByIndex, ih]

theorem mem_jsEntries {q : String × String} {m : Mapping} :
    q ∈ jsEntries m ↔ q ∈ m := by
  simp only [jsEntries, List.mem_append, mem_sortByIndex, List.mem_filter]
  cases h : isArrayIndex q.1 <;> simp [h]

theorem mem_map_jsEntries (f : String × String → String) {x : String} {m : Mapping} :
    x ∈ (jsEntries m).map f ↔ x ∈ m.map f := by
  simp only [List.mem_map, mem_jsEntries]

theorem perm_insertByIndex (p : String × String) (l : List (String × String)) :
    List.Perm (insertByIndex p l) (p :: l) := by
  induction l with
  | nil => simp [insertByIndex]
  | cons r rest ih =>
    by_cases h : indexVal p.1 ≤ indexVal r.1
    · simp [insertByIndex, h]
    · simp only [insertByIndex, h, if_false]
      exact ((ih.cons r).trans (List.Perm.swap p r rest))

theorem perm_sortByIndex (l : List (String × String)) :
    List.Perm (sortByIndex l) l := by
  induction l with
  | nil => simp [sortByIndex]
  | cons p rest ih => exact (perm_insertByIndex p (sortByIndex rest)).trans (ih.cons p)

theorem perm_jsEntries (m : Mapping) : List.Perm (jsEntries m) m := by
  refine ((perm_sortByIndex _).append_right _).trans ?_
  exact List.filter_append_perm _ m

theorem lookup_spreadSet_self (m : Mapping) (s t : String) :
    (spreadSet m s t).lookup s = some t := by
  induction m with
  | nil => simp [spreadSet, List.lookup]
  | cons kv rest ih =>
    obtain ⟨k, v⟩ := kv
    by_cases h : k = s
    · simp [spreadSet, h, List.lookup]
    · have hne : (s == k) = false := by simp [Ne.symm h]
      simp [spreadSet, h, List.lookup, ih, hne]

theorem dragInvariant_applyOp {st : StoreState} (op : Op) (h : dragInvariant st) :
    dragInvariant (applyOp st op) := by
  cases op <;>
    simp_all [applyOp, addConnection, removeConnection, startConnection, endConnection,
      cancelConnection, dragInvariant]

theorem dragInvariant_applyOps {st : StoreState} (ops : List Op) (h : dragInvariant st) :
    dragInvariant (applyOps st ops) := by
  induction ops generalizing st with
  | nil => exact h
  | cons op rest ih => exact ih (dragInvariant_applyOp op h)

/-! Claim theorems. -/

/-- C1 counterexample: the claim fails at the identifier `s = ""`. After
`startConnection("")` a drag is in progress (`isDragging` is true), yet
`endConnection("a")` commits nothing — the guard `if (dragSource.value)`
treats the empty-string drag source as falsy — so no entry `"" -> "a"`
appears; drag state is still cleared. -/
theorem claim1_empty_source_counterexample :
    (startConnection (initialState []) "").isDragging = true
    ∧ (endConnection (startConnection (initialState []) "") "a").mapping.lookup "" = none
    ∧ (endConnection (startConnection (initialState []) "") "a").mapping = []
    ∧ (endConnection (startConnection (initialState []) "") "a").isDragging = false
    ∧ (endConnection (startConnection (initialState []) "") "a").dragSource = none := by
  refine ⟨rfl, by decide, by decide, rfl, rfl⟩

/-- C1 (amended): `endConnection(targetId)` commits
`addConnection(dragSource, targetId)` exactly when `dragSource` is truthy,
that is non-null and non-empty; so for every non-empty `s`,
`startConnection(s)` followed by `endConnection(t)` yields the entry
`s -> t`, overwriting any prior entry for `s`; when `dragSource` is null or
the empty string the mapping is untouched; and in all cases — dragging or
not — `endConnection` resets drag state to `isDragging = false`,
`dragSource = null`. -/
theorem claim1_endConnection_commit (st st2 : StoreState) (s t t2 : String) (h : s ≠ "") :
    (endConnection (startConnection st s) t).mapping = spreadSet st.mapping s t
    ∧ (endConnection (startConnection st s) t).mapping.lookup s = some t
    ∧ (jsTruthy st2.dragSource = false → (endConnection st2 t2).mapping = st2.mapping)
    ∧ (endConnection st2 t2).isDragging = false
    ∧ (endConnection st2 t2).dragSource = none := by
  have hcommit : (endConnection (startConnection st s) t).mapping = spreadSet st.mapping s t := by
    simp [endConnection, startConnection, addConnection, jsTruthy, h]
  refine ⟨hcommit, ?_, ?_, rfl, rfl⟩
  · rw [hcommit]
    exact lookup_spreadSet_self st.mapping s t
  · intro hfalse
    cases hsrc : st2.dragSource with
    | none => simp [endConnection, hsrc]
    | some s2 =>
      rw [hsrc] at hfalse
      simp [endConnection, hsrc, hfalse]

/-- C1 witness: the amended theorem applied at `s = "s"`, `t = "t"`,
starting from a state whose mapping already holds a prior entry for `"s"`
(which gets overwritten). -/
theorem claim1_endConnection_commit_witness :
    ("s" : String) ≠ ""
    ∧ (endConnection (startConnection (initialState [("s", "old")]) "s") "t").mapping
        = [("s", "t")] :=
  ⟨by decide,
    (claim1_endConnection_commit (initialState [("s", "old")]) (initialState []) "s" "t" "u"
      (by decide)).1.trans (by decide)⟩

/-- C2 counterexample: the derived list does not follow the Mapping's
insertion order when keys are array-index strings. Inserting `"1" -> "a"`
then `"0" -> "b"` gives the insertion-ordered mapping
`[("1","a"), ("0","b")]`, but `Object.entries` enumerates integer-index
keys in ascending numeric order, so `connections` lists `0->b` before
`1->a`, differing from the spec's insertion-ordered view. -/
theorem claim2_insertion_order_counterexample :
    (applyOps (initialState []) [Op.add "1" "a", Op.add "0" "b"]).mapping
      = [("1", "a"), ("0", "b")]
    ∧ (connections (applyOps (initialState []) [Op.add "1" "a", Op.add "0" "b"])).map
        Connection.id = ["0->b", "1->a"]
    ∧ connections (applyOps (initialState []) [Op.add "1" "a", Op.add "0" "b"])
        ≠ specConnections (applyOps (initialState []) [Op.add "1" "a", Op.add "0" "b"]) := by
  refine ⟨by decide, by decide, by decide⟩

/-- C2 (amended): every read of `connections` derives, fresh from the
mapping, exactly one Connection view `{id, source, target}` per entry with
`id = source ++ "->" ++ target` (so the views are a permutation of the
insertion-ordered views), and the list order follows `Object.entries`
enumeration order: array-index keys ascending numerically first, then the
remaining keys in insertion order — which coincides with the Mapping's
insertion order whenever no key is an array-index string. -/
theorem claim2_connections_view (st : StoreState)
    (h : ∀ kv ∈ st.mapping, isArrayIndex kv.1 = false) :
    connections st = specConnections st
    ∧ (∀ c ∈ connections st, c.id = c.source ++ "->" ++ c.target)
    ∧ List.Perm (connections st) (specConnections st)
    ∧ (connections st).length = st.mapping.length := by
  have hperm : List.Perm (connections st) (specConnections st) :=
    (perm_jsEntries st.mapping).map _
  refine ⟨?_, ?_, hperm, ?_⟩
  · unfold connections specConnections jsEntries
    rw [List.filter_eq_nil_iff.2 (by simpa using h), sortByIndex,
      List.filter_eq_self.2 (fun kv hkv => by simp [h kv hkv]), List.nil_append]
  · intro c hc
    simp only [connections, List.mem_map] at hc
    obtain ⟨kv, _, rfl⟩ := hc
    rfl
  · simpa [specConnections] using hperm.length_eq

/-- C2 witness: the amended theorem applied to a mapping whose keys
`"a"`, `"b"` are not array-index strings; `connections` there equals the
insertion-ordered view. -/
theorem claim2_connections_view_witness :
    (∀ kv ∈ (initialState [("a", "x"), ("b", "x")]).mapping, isArrayIndex kv.1 = false)
    ∧ connections (initialState [("a", "x"), ("b", "x")])
        = specConnections (initialState [("a", "x"), ("b", "x")]) :=
  ⟨by decide, (claim2_connections_view (initialState [("a", "x"), ("b", "x")]) (by decide)).1⟩

/-- C3: in every state reachable from an initial store (any host mapping,
not dragging, null drag source) by any sequence of `addConnection`,
`removeConnection`, `startConnection`, `endConnection`, `cancelConnection`
calls, `dragSource` is non-null only while `isDragging` is true. -/
theorem claim3_drag_invariant (m0 : Mapping) (ops : List Op)
    (h : (applyOps (initialState m0) ops).dragSource ≠ none) :
    (applyOps (initialState m0) ops).isDragging = true :=
  dragInvariant_applyOps ops (fun hn => absurd rfl hn) h

/-- C3 witness: after `startConnection("a")` the drag source is non-null
and the invariant forces `isDragging = true`. -/
theorem claim3_drag_invariant_witness :
    (applyOps (initialState []) [Op.start "a"]).dragSource ≠ none
    ∧ (applyOps (initialState []) [Op.start "a"]).isDragging = true :=
  ⟨by decide, claim3_drag_invariant [] [Op.start "a"] (by decide)⟩

/-- C4: in every state reached by any call sequence (in particular by
`addConnection`/`removeConnection` sequences), `hasConnection(x, "source")`
is true exactly when `x` is a key of the current mapping, and
`hasConnection(x, "target")` exactly when `x` is a value. -/
theorem claim4_hasConnection_membership (m0 : Mapping) (ops : List Op) (x : String) :
    (hasConnection (applyOps (initialState m0) ops) x NodeType.source = true
      ↔ x ∈ (applyOps (initialState m0) ops).mapping.map Prod.fst)
    ∧ (hasConnection (applyOps (initialState m0) ops) x NodeType.target = true
      ↔ x ∈ (applyOps (initialState m0) ops).mapping.map Prod.snd) := by
  constructor
  · rw [show hasConnection (applyOps (initialState m0) ops) x NodeType.source
        = ((jsEntries (applyOps (initialState m0) ops).mapping).map Prod.fst).contains x
      from rfl]
    rw [List.elem_iff]
    exact mem_map_jsEntries Prod.fst
  · rw [show hasConnection (applyOps (initialState m0) ops) x NodeType.target
        = ((jsEntries (applyOps (initialState m0) ops).mapping).map Prod.snd).contains x
      from rfl]
    rw [List.elem_iff]
    exact mem_map_jsEntries Prod.snd

/-- C4 witness: the theorem applied after `addConnection("a","b")`:
`hasConnection("a","source")` and `hasConnection("b","target")` hold. -/
theorem claim4_hasConnection_membership_witness :
    hasConnection (applyOps (initialState []) [Op.add "a" "b"]) "a" NodeType.source = true
    ∧ hasConnection (applyOps (initialState []) [Op.add "a" "b"]) "b" NodeType.target = true :=
  ⟨(claim4_hasConnection_membership [] [Op.add "a" "b"] "a").1.mpr (by decide),
   (claim4_hasConnection_membership [] [Op.add "a" "b"] "b").2.mpr (by decide)⟩

/-- C8: `startConnection(s)` followed immediately by `cancelConnection()`
leaves the committed mapping exactly as before and resets drag state to
Idle; `cancelConnection` unconditionally clears drag state and commits
nothing from any state. -/
theorem claim8_cancel_frame (st st2 : StoreState) (s : String) :
    (cancelConnection (startConnection st s)).mapping = st.mapping
    ∧ (cancelConnection (startConnection st s)).isDragging = false
    ∧ (cancelConnection (startConnection st s)).dragSource = none
    ∧ (cancelConnection st2).mapping = st2.mapping
    ∧ (cancelConnection st2).isDragging = false
    ∧ (cancelConnection st2).dragSource = none :=
  ⟨rfl, rfl, rfl, rfl, rfl, rfl⟩

/-- C9: `removeConnection(s)` deletes the entry for `s` when `s` is a key
(no key `s` remains, every other entry survives, and the remainder is a
sublist of the original), and is a no-op on the mapping when `s` is not a
key; being a total function of the model, it throws nothing. -/
theorem claim9_removeConnection (st : StoreState) (s : String) :
    (s ∉ st.mapping.map Prod.fst → (removeConnection st s).mapping = st.mapping)
    ∧ s ∉ (removeConnection st s).mapping.map Prod.fst
    ∧ (∀ kv ∈ st.mapping, kv.1 ≠ s → kv ∈ (removeConnection st s).mapping)
    ∧ (removeConnection st s).mapping.Sublist st.mapping := by
  refine ⟨?_, ?_, ?_, List.filter_sublist _⟩
  · intro h
    show omitKeys st.mapping [s] = st.mapping
    unfold omitKeys
    refine List.filter_eq_self.2 (fun kv hkv => ?_)
    have : kv.1 ≠ s := fun he => h (List.mem_map.2 ⟨kv, hkv, he⟩)
    simp [this]
  · intro h
    obtain ⟨kv, hkv, hfst⟩ := List.mem_map.1 h
    have := (List.mem_filter.1 hkv).2
    simp [hfst] at this
  · intro kv hkv hne
    exact List.mem_filter.2 ⟨hkv, by simp [hne]⟩

/-- C9 witness: removing the absent key `"x"` leaves `[("a","b")]`
unchanged; removing `"a"` leaves no key `"a"`. -/
theorem claim9_removeConnection_witness :
    ("x" ∉ ([("a", "b")] : Mapping).map Prod.fst
      ∧ (removeConnection (initialState [("a", "b")]) "x").mapping = [("a", "b")])
    ∧ "a" ∉ (removeConnection (initialState [("a", "b")]) "a").mapping.map Prod.fst :=
  ⟨⟨by decide, (claim9_removeConnection (initialState [("a", "b")]) "x").1 (by decide)⟩,
   (claim9_removeConnection (initialState [("a", "b")]) "a").2.1⟩

/-- C10: `startConnection` and `cancelConnection` never modify the
committed mapping, and `addConnection` / `removeConnection` never modify
the drag state. -/
theorem claim10_frame_effects (st : StoreState) (s t : String) :
    (startConnection st s).mapping = st.mapping
    ∧ (cancelConnection st).mapping = st.mapping
    ∧ (addConnection st s t).isDragging = st.isDragging
    ∧ (addConnection st s t).dragSource = st.dragSource
    ∧ (removeConnection st s).isDragging = st.isDragging
    ∧ (removeConnection st s).dragSource = st.dragSource :=
  ⟨rfl, rfl, rfl, rfl, rfl, rfl⟩

/-- C5: the bezier generator places both control points offset horizontally
by half the horizontal span (`|tx - sx| / 2`) from their endpoint and at
their endpoint's vertical coordinate; when `sy = ty` (second conjunct, with
`ty` instantiated to `sy`) every control-point y-coordinate equals `sy`, a
straight horizontal line; and `bezierPath(0,0,100,50)` is exactly
`"M 0 0 C 50 0, 50 50, 100 50"`. -/
theorem claim5_bezier_control_points (sx sy tx ty : ℚ) :
    generateBezierPath sx sy tx ty
      = "M " ++ fmtNum sx ++ " " ++ fmtNum sy ++ " C " ++ fmtNum (sx + |tx - sx| / 2) ++ " "
        ++ fmtNum sy ++ ", " ++ fmtNum (tx - |tx - sx| / 2) ++ " " ++ fmtNum ty ++ ", "
        ++ fmtNum tx ++ " " ++ fmtNum ty
    ∧ generateBezierPath sx sy tx sy
      = "M " ++ fmtNum sx ++ " " ++ fmtNum sy ++ " C " ++ fmtNum (sx + |tx - sx| / 2) ++ " "
        ++ fmtNum sy ++ ", " ++ fmtNum (tx - |tx - sx| / 2) ++ " " ++ fmtNum sy ++ ", "
        ++ fmtNum tx ++ " " ++ fmtNum sy
    ∧ generateBezierPath 0 0 100 50 = "M 0 0 C 50 0, 50 50, 100 50" := by
  have h : |tx - sx| * (1 / 2 : ℚ) = |tx - sx| / 2 := by ring
  refine ⟨by simp only [generateBezierPath, h], by simp only [generateBezierPath, h], ?_⟩
  have h1 : (0 : ℚ) + |(100 : ℚ) - 0| * (1 / 2) = 50 := by norm_num
  have h2 : (100 : ℚ) - |(100 : ℚ) - 0| * (1 / 2) = 50 := by norm_num
  simp only [generateBezierPath, h1, h2]
  rfl

/-- C6: the smooth step generator emits a horizontal run from the source to
the horizontal midpoint (stopping `radius` short), a quarter-turn of the
given radius, a vertical run to the target's vertical level (stopping
`radius` short), a mirrored quarter-turn, and a horizontal run to the
target; the vertical turn heads downward (y increases by `radius`) when
`sy < ty`, upward otherwise; `smoothStepPath(10,20,100,80,5)` is exactly
`"M 10 20 H 50 Q 55,20 55,25 V 75 Q 55,80 60,80 H 100"`, starting with
`"M 10 20"` and ending with `"H 100"`. -/
theorem claim6_smoothstep_shape (sx sy tx ty r ux uy vx vy w : ℚ)
    (hdown : sy < ty) (hup : ¬ uy < vy) :
    generateSmoothStepPath sx sy tx ty r
      = String.intercalate " " [
          "M " ++ fmtNum sx ++ " " ++ fmtNum sy,
          "H " ++ fmtNum ((sx + tx) / 2 - r),
          "Q " ++ fmtNum ((sx + tx) / 2) ++ "," ++ fmtNum sy ++ " " ++ fmtNum ((sx + tx) / 2)
            ++ "," ++ fmtNum (sy + r),
          "V " ++ fmtNum (ty - r),
          "Q " ++ fmtNum ((sx + tx) / 2) ++ "," ++ fmtNum ty ++ " "
            ++ fmtNum ((sx + tx) / 2 + r) ++ "," ++ fmtNum ty,
          "H " ++ fmtNum tx
        ]
    ∧ generateSmoothStepPath ux uy vx vy w
      = String.intercalate " " [
          "M " ++ fmtNum ux ++ " " ++ fmtNum uy,
          "H " ++ fmtNum ((ux + vx) / 2 - w),
          "Q " ++ fmtNum ((ux + vx) / 2) ++ "," ++ fmtNum uy ++ " " ++ fmtNum ((ux + vx) / 2)
            ++ "," ++ fmtNum (uy - w),
          "V " ++ fmtNum (vy + w),
          "Q " ++ fmtNum ((ux + vx) / 2) ++ "," ++ fmtNum vy ++ " "
            ++ fmtNum ((ux + vx) / 2 + w) ++ "," ++ fmtNum vy,
          "H " ++ fmtNum vx
        ]
    ∧ generateSmoothStepPath 10 20 100 80 5
        = "M 10 20 H 50 Q 55,20 55,25 V 75 Q 55,80 60,80 H 100"
    ∧ (∃ rest, generateSmoothStepPath 10 20 100 80 5 = "M 10 20" ++ rest)
    ∧ (∃ front, generateSmoothStepPath 10 20 100 80 5 = front ++ "H 100") := by
  have hconc : generateSmoothStepPath 10 20 100 80 5
      = "M 10 20 H 50 Q 55,20 55,25 V 75 Q 55,80 60,80 H 100" := by
    have hlt : (20 : ℚ) < 80 := by norm_num
    simp only [generateSmoothStepPath, if_pos hlt]
    norm_num
    rfl
  refine ⟨?_, ?_, hconc, ?_, ?_⟩
  · have e1 : sy + (1 : ℚ) * r = sy + r := by ring
    have e2 : ty - (1 : ℚ) * r = ty - r := by ring
    simp only [generateSmoothStepPath, if_pos hdown, e1, e2]
  · have e1 : uy + (-1 : ℚ) * w = uy - w := by ring
    have e2 : vy - (-1 : ℚ) * w = vy + w := by ring
    simp only [generateSmoothStepPath, if_neg hup, e1, e2]
  · exact ⟨" H 50 Q 55,20 55,25 V 75 Q 55,80 60,80 H 100", by rw [hconc]; rfl⟩
  · exact ⟨"M 10 20 H 50 Q 55,20 55,25 V 75 Q 55,80 60,80 ", by rw [hconc]; rfl⟩

/-- C6 witness: the theorem applied with the downward case at
`(10,20,100,80,5)` (target below source, `20 < 80`) and the upward case at
`(0,10,10,0,2)` (`¬ 10 < 0`). -/
theorem claim6_smoothstep_shape_witness :
    (20 : ℚ) < 80
    ∧ ¬ (10 : ℚ) < 0
    ∧ generateSmoothStepPath 10 20 100 80 5
        = "M 10 20 H 50 Q 55,20 55,25 V 75 Q 55,80 60,80 H 100" :=
  ⟨by norm_num, by norm_num,
    (claim6_smoothstep_shape 10 20 100 80 5 0 10 10 0 2 (by norm_num) (by norm_num)).2.2.1⟩

/-- C7: the arrow generator produces a closed triangular path with tip
`(targetX - offset, targetY)` and both base corners at x-coordinate
`tip.x - size`, offset vertically by `-size/2` and `+size/2` from
`targetY`; `arrowPath(4,0)` at target `(20,20)` yields
`"M 20 20 L 16 18 L 16 22 Z"`: tip `(20,20)`, corners `(16,18)` and
`(16,22)`. -/
theorem claim7_arrow_triangle (targetX targetY size offset : ℚ) :
    getArrowPath targetX targetY size offset
      = "M " ++ fmtNum (targetX - offset) ++ " " ++ fmtNum targetY ++ " L "
        ++ fmtNum (targetX - offset - size) ++ " " ++ fmtNum (targetY - size / 2) ++ " L "
        ++ fmtNum (targetX - offset - size) ++ " " ++ fmtNum (targetY + size / 2) ++ " Z"
    ∧ getArrowPath 20 20 4 0 = "M 20 20 L 16 18 L 16 22 Z" := by
  refine ⟨by simp only [getArrowPath], ?_⟩
  simp only [getArrowPath]
  norm_num
  rfl

end ValueMapper
